import Mathlib

/-!
# Verification of `stability_evaluation.py`

A shallow embedding of the spike-sorting stability-evaluation module
(`src/stability/stability_evaluation.py`) together with proofs about the
embedded operations.

Conventions of the embedding:

* A spike train (`numpy.ndarray` of shape `[N, 2]`) is a `List (Int × Int)`
  of `(time, unit_label)` pairs, in array row order.
* Recording batches (`[time_samples × n_chan]` float matrices) are
  `List (List ℚ)` (row-major); the exact real arithmetic of the module is
  modelled over `ℚ` (all the operations the claims touch are field
  operations, so `ℚ` tracks the float computation exactly on the inputs
  considered).
* In-place numpy updates are modelled by explicit state passing; the value
  held by the caller's array after a call is the function's result.
* Code that can raise (`try`/`except`, fancy indexing out of range,
  attribute lookup) is modelled with `Option`.
* Calls into `numpy`'s random generator are modelled as oracle inputs: the
  drawn values are extra arguments of the embedded function.
-/

/-! ## `clean_spike_train` (SpikeTrainNormalizer)

```python
def clean_spike_train(spt):
    units = np.unique(spt[:, 1])
    spt[:, 1] += len(units)
    units += len(units)
    for i, u in enumerate(units):
        u_idx = spt[:, 1] == u
        spt[u_idx, 1] = i
    return spt
```

`np.unique` returns the sorted distinct values; the function then shifts all
labels by the distinct-label count and renumbers them `0..U-1` in sorted
order, writing into `spt` in place and returning the same array.
-/

/-- `np.unique` on a 1-D integer array: sorted distinct values. -/
def npUnique (l : List Int) : List Int :=
  (l.insertionSort (· ≤ ·)).dedup

/-- One iteration of the relabeling loop body
`spt[spt[:, 1] == u, 1] = i` : every event whose label equals `u` gets
label `i`. -/
def relabelStep (s : List (Int × Int)) (pr : ℕ × Int) : List (Int × Int) :=
  s.map (fun p => if p.2 = pr.2 then (p.1, (pr.1 : Int)) else p)

/-- Shallow embedding of `clean_spike_train`.  The returned list is the
content of the (mutated) argument array after the call, which is also the
function's return value. -/
def clean_spike_train (spt : List (Int × Int)) : List (Int × Int) :=
  let units := npUnique (spt.map Prod.snd)
  let U : Int := units.length
  let spt1 := spt.map (fun p => (p.1, p.2 + U))
  let units1 := units.map (· + U)
  (units1.enum).foldl relabelStep spt1

/-- The numpy code updates `spt[:, 1]` in place and returns the very same
array object, so after the call the caller's argument holds exactly the
returned (normalized) train.  This alias names that final content of the
caller's array. -/
def clean_spike_train_final_arg (spt : List (Int × Int)) : List (Int × Int) :=
  clean_spike_train spt

/-- `List.indexOf` is stable under adding a constant to every element. -/
theorem indexOf_map_add (c : Int) : ∀ (l : List Int) (a : Int),
    (l.map (· + c)).indexOf (a + c) = l.indexOf a := by
  intro l
  induction l with
  | nil => intro a; rfl
  | cons b t ih =>
    intro a
    by_cases hab : a = b
    · subst hab
      simp [List.indexOf_cons_self]
    · have h1 : b + c ≠ a + c := fun h => hab (by omega)
      rw [List.map_cons, List.indexOf_cons_ne _ h1, List.indexOf_cons_ne _ (fun h => hab h.symm)]
      rw [ih a]

/-- Unfolding of the relabeling loop: provided no unit value collides with
any index that the loop will assign, the loop replaces each label that
occurs in `us` by `n +` its position in `us` and leaves other labels
alone. -/
theorem relabel_fold_eq : ∀ (us : List Int) (n : ℕ) (s : List (Int × Int)),
    (∀ u ∈ us, ∀ k : ℕ, k < n + us.length → u ≠ (k : Int)) →
    (us.enumFrom n).foldl relabelStep s
      = s.map (fun p =>
          if p.2 ∈ us then (p.1, ((n + us.indexOf p.2 : ℕ) : Int)) else p) := by
  intro us
  induction us with
  | nil =>
    intro n s _
    simp
  | cons u ut ih =>
    intro n s hge
    have hstep : (List.enumFrom n (u :: ut)).foldl relabelStep s
        = (List.enumFrom (n + 1) ut).foldl relabelStep (relabelStep s (n, u)) := rfl
    rw [hstep, ih (n + 1) (relabelStep s (n, u))
      (by
        intro v hv k hk
        exact hge v (List.mem_cons_of_mem _ hv) k (by simp at hk ⊢; omega))]
    unfold relabelStep
    rw [List.map_map]
    apply List.map_congr_left
    intro p _
    simp only [Function.comp_apply]
    by_cases hpu : p.2 = u
    · have hn_notin : ((n : Int)) ∉ ut := by
        intro hmem
        exact hge _ (List.mem_cons_of_mem _ hmem) n (by simp) rfl
      subst hpu
      simp [hn_notin, List.indexOf_cons_self]
    · rw [if_neg hpu]
      by_cases hpt : p.2 ∈ ut
      · rw [if_pos hpt, if_pos (List.mem_cons_of_mem _ hpt)]
        rw [List.indexOf_cons_ne _ (fun h => hpu h.symm)]
        refine congrArg (fun z => (p.1, z)) ?_
        omega
      · rw [if_neg hpt]
        rw [if_neg (by
          intro hmem
          rcases List.mem_cons.mp hmem with h | h
          · exact hpu h
          · exact hpt h)]

/-- Membership in `npUnique` is membership in the original list. -/
theorem mem_npUnique {a : Int} {l : List Int} : a ∈ npUnique l ↔ a ∈ l := by
  unfold npUnique
  rw [List.mem_dedup]
  exact (l.perm_insertionSort (· ≤ ·)).mem_iff

/-- `npUnique` has no duplicates. -/
theorem npUnique_nodup (l : List Int) : (npUnique l).Nodup :=
  (l.insertionSort (· ≤ ·)).nodup_dedup

/-- Closed form of `clean_spike_train` on trains with nonnegative labels:
each label is replaced by its rank among the distinct labels, times are
untouched. -/
theorem clean_spike_train_eq (spt : List (Int × Int))
    (hpos : ∀ p ∈ spt, 0 ≤ p.2) :
    clean_spike_train spt
      = spt.map (fun p =>
          (p.1, (((npUnique (spt.map Prod.snd)).indexOf p.2 : ℕ) : Int))) := by
  simp only [clean_spike_train]
  set units := npUnique (spt.map Prod.snd) with hunits
  set U : Int := (units.length : Int) with hU
  have henum : (units.map (· + U)).enum = (units.map (· + U)).enumFrom 0 := rfl
  rw [henum, relabel_fold_eq (units.map (· + U)) 0 _
    (by
      intro v hv k hk
      rcases List.mem_map.mp hv with ⟨w, hw, hwv⟩
      have hw0 : 0 ≤ w := by
        have : w ∈ spt.map Prod.snd := mem_npUnique.mp hw
        rcases List.mem_map.mp this with ⟨p, hp, hpw⟩
        rw [← hpw]; exact hpos p hp
      have hkU : (k : Int) < U := by
        rw [List.length_map] at hk
        simp only [hU]
        omega
      omega)]
  rw [List.map_map]
  apply List.map_congr_left
  intro p hp
  have hpmem : p.2 ∈ units := by
    rw [hunits, mem_npUnique]
    exact List.mem_map.mpr ⟨p, hp, rfl⟩
  have hmem1 : p.2 + U ∈ units.map (· + U) := List.mem_map.mpr ⟨p.2, hpmem, rfl⟩
  simp only [Function.comp_apply]
  rw [if_pos hmem1]
  rw [indexOf_map_add U units p.2]
  simp

/-- The relabeling loop never touches spike times. -/
theorem relabel_foldl_fst : ∀ (prs : List (ℕ × Int)) (s : List (Int × Int)),
    (prs.foldl relabelStep s).map Prod.fst = s.map Prod.fst := by
  intro prs
  induction prs with
  | nil => intro s; rfl
  | cons pr t ih =>
    intro s
    rw [List.foldl_cons, ih]
    unfold relabelStep
    rw [List.map_map]
    apply List.map_congr_left
    intro p _
    by_cases h : p.2 = pr.2 <;> simp [h]

/-- `clean_spike_train` preserves the list of spike times (first column). -/
theorem clean_spike_train_fst (spt : List (Int × Int)) :
    (clean_spike_train spt).map Prod.fst = spt.map Prod.fst := by
  simp only [clean_spike_train]
  rw [relabel_foldl_fst]
  rw [List.map_map]
  rfl

/-- Every label produced by `clean_spike_train` on a nonnegative-label train
is some `i < U`, where `U` is the number of distinct input labels. -/
theorem clean_label_lt (spt : List (Int × Int)) (hpos : ∀ p ∈ spt, 0 ≤ p.2) :
    ∀ q ∈ clean_spike_train spt,
      ∃ i : ℕ, i < (npUnique (spt.map Prod.snd)).length ∧ q.2 = (i : Int) := by
  intro q hq
  rw [clean_spike_train_eq spt hpos] at hq
  rcases List.mem_map.mp hq with ⟨p, hp, hpq⟩
  refine ⟨(npUnique (spt.map Prod.snd)).indexOf p.2, ?_, ?_⟩
  · exact List.indexOf_lt_length.mpr
      (mem_npUnique.mpr (List.mem_map.mpr ⟨p, hp, rfl⟩))
  · rw [← hpq]

/-- Every index `i < U` is attained as a label of `clean_spike_train`
applied to a nonnegative-label train. -/
theorem clean_label_surj (spt : List (Int × Int)) (hpos : ∀ p ∈ spt, 0 ≤ p.2) :
    ∀ i : ℕ, i < (npUnique (spt.map Prod.snd)).length →
      ∃ q ∈ clean_spike_train spt, q.2 = (i : Int) := by
  intro i hi
  set units := npUnique (spt.map Prod.snd) with hunits
  have hvmem : units.get ⟨i, hi⟩ ∈ units := List.get_mem _ i hi
  have hlbl : units.get ⟨i, hi⟩ ∈ spt.map Prod.snd := mem_npUnique.mp hvmem
  rcases List.mem_map.mp hlbl with ⟨p, hp, hpv⟩
  refine ⟨(p.1, ((units.indexOf p.2 : ℕ) : Int)), ?_, ?_⟩
  · rw [clean_spike_train_eq spt hpos]
    exact List.mem_map.mpr ⟨p, hp, rfl⟩
  · have : units.indexOf p.2 = i := by
      rw [hpv]
      exact List.get_indexOf (npUnique_nodup _) ⟨i, hi⟩
    rw [this]

/-- The distinct-value count used by `clean_spike_train` is the number of
distinct labels of the input. -/
theorem npUnique_length_eq_card (l : List Int) :
    (npUnique l).length = l.toFinset.card := by
  rw [List.card_toFinset]
  unfold npUnique
  exact ((l.perm_insertionSort (· ≤ ·)).dedup).length_eq

/-! ## `MeanWaveCalculator.compute_templates`

```python
def compute_templates(self, n_batches):
    counts = np.zeros(self.n_units)
    boundary_violation = 0
    n_samples = self.batch_reader.batch_time_samples
    for i in tqdm(range(n_batches)):
        batch_idx = np.logical_and(
            self.spike_train[:, 0] > i * n_samples,
            self.spike_train[:, 0] < (i+1) * n_samples)
        spt = self.spike_train[batch_idx, :]
        spt[:, 0] -= n_samples * i
        ts = self.batch_reader.next_batch()
        for j in range(spt.shape[0]):
            try:
                self.templates[:, :, spt[j, 1]] += ts[spt[j, 0] + self.window, :]
                counts[spt[j, 1]] += 1
            except:
                boundary_violation += 1
    for u in range(self.n_units):
        if counts[u]:
            self.templates[:, :, u] /= counts[u]
    return boundary_violation
```

`self.window` is `range(-10, 30)`.  The fancy index `ts[spt[j,0]+window, :]`
follows numpy semantics: an index `idx` with `-len(ts) <= idx < 0` silently
wraps to `len(ts) + idx`; only an index outside `[-len(ts), len(ts))` raises
`IndexError` (caught by the bare `except`).  The batch reader is modelled as
the list of batches it returns, one per loop iteration.
-/

/-- The extraction window `range(-10, 30)` of `MeanWaveCalculator`. -/
def mwcWindow : List Int := (List.range 40).map (fun (k : ℕ) => (k : Int) - 10)

/-- numpy row indexing validity: an integer index into an array of `n` rows
is accepted iff it lies in `[-n, n)`. -/
def inBoundsIdx (n : ℕ) (idx : Int) : Bool :=
  decide (-(n : Int) ≤ idx) && decide (idx < (n : Int))

/-- numpy row access with negative-index wrapping (assumes `inBoundsIdx`). -/
def npRow (ts : List (List ℚ)) (idx : Int) : List ℚ :=
  if idx < 0 then ts.getD (idx + ts.length).toNat [] else ts.getD idx.toNat []

/-- `ts[t + window, :]` — the fancy-indexed extraction of the 40 window rows
around batch-local time `t`; `none` models the `IndexError` raised when any
index falls outside `[-len(ts), len(ts))`. -/
def extract_window (ts : List (List ℚ)) (t : Int) : Option (List (List ℚ)) :=
  if mwcWindow.all (fun w => inBoundsIdx ts.length (t + w)) then
    some (mwcWindow.map (fun w => npRow ts (t + w)))
  else none

/-- Elementwise sum of two equally-shaped matrices (numpy `+=` on a slice). -/
def matAdd (a b : List (List ℚ)) : List (List ℚ) :=
  List.zipWith (fun r s => List.zipWith (· + ·) r s) a b

/-- Accumulation state of `compute_templates`: per-unit template sums
(`self.templates` before the final division), per-unit spike counts and the
boundary-violation tally. -/
structure TemplState where
  sums : Int → List (List ℚ)
  counts : Int → ℕ
  violations : ℕ

/-- The body of the inner loop over the spikes of one batch: extract the
window rows, add them into the unit's template and bump its count, or -- on
`IndexError` -- bump the boundary-violation counter. -/
def spike_step (ts : List (List ℚ)) (s : TemplState) (p : Int × Int) : TemplState :=
  match extract_window ts p.1 with
  | some w =>
      { s with
        sums := fun u => if u = p.2 then matAdd (s.sums u) w else s.sums u,
        counts := fun u => if u = p.2 then s.counts u + 1 else s.counts u }
  | none => { s with violations := s.violations + 1 }

/-- The spikes selected for batch `i` (strictly inside the batch) with times
shifted to batch-local coordinates. -/
def batch_spikes (spt : List (Int × Int)) (n_samples i : Int) : List (Int × Int) :=
  (spt.filter (fun p =>
      decide (i * n_samples < p.1) && decide (p.1 < (i + 1) * n_samples))).map
    (fun p => (p.1 - n_samples * i, p.2))

/-- The accumulation phase of `compute_templates`: iterate over the batches
delivered by the reader, and within each batch over its spikes. -/
def compute_templates (batches : List (List (List ℚ))) (n_samples : Int)
    (spt : List (Int × Int)) (s0 : TemplState) : TemplState :=
  (batches.enum).foldl
    (fun s pr => (batch_spikes spt n_samples (pr.1 : Int)).foldl (spike_step pr.2) s)
    s0

/-- The final normalization `templates[:, :, u] /= counts[u]` (skipped for
zero counts). -/
def normalize_templates (s : TemplState) : Int → List (List ℚ) :=
  fun u =>
    if s.counts u = 0 then s.sums u
    else (s.sums u).map (fun r => r.map (fun x => x / (s.counts u : ℚ)))

/-- The all-zero initial state with `n_chan` channels. -/
def initTemplState (n_chan : ℕ) : TemplState where
  sums := fun _ => List.replicate 40 (List.replicate n_chan (0 : ℚ))
  counts := fun _ => 0
  violations := 0

/-- Offsets in the extraction window lie between `-10` and `29`. -/
theorem mwcWindow_bounds : ∀ w ∈ mwcWindow, -10 ≤ w ∧ w ≤ 29 := by
  decide

/-- The extraction raises `IndexError` exactly when the window reaches an
index outside `[-len(ts), len(ts))`: past the batch end (`t + 29`), or below
the wrap range (`t - 10 < -len(ts)`).  A window that merely starts before
the batch (`t < 10` but `t - 10 ≥ -len(ts)`) does *not* raise: numpy wraps
the negative indices to the end of the batch. -/
theorem extract_window_none_iff (ts : List (List ℚ)) (t : Int) :
    extract_window ts t = none ↔
      ((ts.length : Int) ≤ t + 29 ∨ t - 10 < -(ts.length : Int)) := by
  unfold extract_window
  by_cases h : mwcWindow.all (fun w => inBoundsIdx ts.length (t + w))
  · rw [if_pos h]
    simp only [List.all_eq_true] at h
    constructor
    · intro hcontra; exact absurd hcontra (by simp)
    · intro hcase
      exfalso
      rcases hcase with hhi | hlo
      · have h29 : (29 : Int) ∈ mwcWindow := by decide
        have := h 29 h29
        simp only [inBoundsIdx, Bool.and_eq_true, decide_eq_true_eq] at this
        omega
      · have hm10 : (-10 : Int) ∈ mwcWindow := by decide
        have := h (-10) hm10
        simp only [inBoundsIdx, Bool.and_eq_true, decide_eq_true_eq] at this
        omega
  · rw [if_neg h]
    constructor
    · intro _
      by_contra hgoal
      push_neg at hgoal
      apply h
      rw [List.all_eq_true]
      intro w hw
      have hbd := mwcWindow_bounds w hw
      simp only [inBoundsIdx, Bool.and_eq_true, decide_eq_true_eq]
      omega
    · intro _; rfl

/-- Unfolding the inner spike loop of `compute_templates` over one batch:
each spike whose window extraction fails bumps the violation counter by
exactly one and leaves every unit's sum and count untouched; each spike
whose extraction succeeds is added to exactly its own unit's sum and
count. -/
theorem spike_fold_spec (ts : List (List ℚ)) : ∀ (l : List (Int × Int)) (s : TemplState),
    ((l.foldl (spike_step ts) s).violations
        = s.violations + (l.filter (fun p => (extract_window ts p.1).isNone)).length)
  ∧ (∀ u, (l.foldl (spike_step ts) s).counts u
        = s.counts u
          + (l.filter (fun p => (extract_window ts p.1).isSome && (p.2 == u))).length)
  ∧ (∀ u, (l.foldl (spike_step ts) s).sums u
        = (l.filterMap (fun p => if p.2 = u then extract_window ts p.1 else none)).foldl
            matAdd (s.sums u)) := by
  intro l
  induction l with
  | nil => intro s; refine ⟨rfl, fun u => rfl, fun u => rfl⟩
  | cons p t ih =>
    intro s
    rcases h : extract_window ts p.1 with _ | w
    · -- IndexError: the bare except bumps the violation counter
      have hstep : spike_step ts s p = { s with violations := s.violations + 1 } := by
        unfold spike_step; rw [h]
      refine ⟨?_, fun u => ?_, fun u => ?_⟩
      · rw [List.foldl_cons, (ih (spike_step ts s p)).1, hstep]
        simp [List.filter_cons, h]
        omega
      · rw [List.foldl_cons, (ih (spike_step ts s p)).2.1 u, hstep]
        simp [List.filter_cons, h]
      · rw [List.foldl_cons, (ih (spike_step ts s p)).2.2 u, hstep]
        simp only [List.filterMap_cons, h]
        have : (if p.2 = u then (none : Option (List (List ℚ))) else none) = none := by
          split <;> rfl
        rw [this]
    · -- successful extraction: accumulate into the unit's sum and count
      have hstep : spike_step ts s p
          = { s with
              sums := fun u => if u = p.2 then matAdd (s.sums u) w else s.sums u,
              counts := fun u => if u = p.2 then s.counts u + 1 else s.counts u } := by
        unfold spike_step; rw [h]
      refine ⟨?_, fun u => ?_, fun u => ?_⟩
      · rw [List.foldl_cons, (ih (spike_step ts s p)).1, hstep]
        simp [List.filter_cons, h]
      · rw [List.foldl_cons, (ih (spike_step ts s p)).2.1 u, hstep]
        by_cases hu : p.2 = u
        · subst hu
          simp [List.filter_cons, h]
          omega
        · have hbu : ((extract_window ts p.1).isSome && (p.2 == u)) = false := by
            simp [hu]
          have hu2 : ¬ u = p.2 := Ne.symm hu
          simp [List.filter_cons, hbu, hu2]
      · rw [List.foldl_cons, (ih (spike_step ts s p)).2.2 u, hstep]
        by_cases hu : p.2 = u
        · subst hu
          simp [List.filterMap_cons, h]
        · have hu2 : ¬ u = p.2 := Ne.symm hu
          simp [List.filterMap_cons, hu, hu2]

/-- Unfolding the batch loop of `compute_templates` over an arbitrary
enumerated batch list. -/
theorem batches_fold_spec (spt : List (Int × Int)) (n_samples : Int) :
    ∀ (bl : List (ℕ × List (List ℚ))) (s : TemplState),
    ((bl.foldl
        (fun s pr => (batch_spikes spt n_samples (pr.1 : Int)).foldl (spike_step pr.2) s)
        s).violations
      = s.violations
        + (bl.map (fun pr =>
            ((batch_spikes spt n_samples (pr.1 : Int)).filter
              (fun p => (extract_window pr.2 p.1).isNone)).length)).sum)
  ∧ (∀ u, (bl.foldl
        (fun s pr => (batch_spikes spt n_samples (pr.1 : Int)).foldl (spike_step pr.2) s)
        s).counts u
      = s.counts u
        + (bl.map (fun pr =>
            ((batch_spikes spt n_samples (pr.1 : Int)).filter
              (fun p => (extract_window pr.2 p.1).isSome && (p.2 == u))).length)).sum)
  ∧ (∀ u, (bl.foldl
        (fun s pr => (batch_spikes spt n_samples (pr.1 : Int)).foldl (spike_step pr.2) s)
        s).sums u
      = ((bl.map (fun pr =>
            (batch_spikes spt n_samples (pr.1 : Int)).filterMap
              (fun p => if p.2 = u then extract_window pr.2 p.1 else none))).flatten).foldl
          matAdd (s.sums u)) := by
  intro bl
  induction bl with
  | nil => intro s; exact ⟨by simp, fun u => by simp, fun u => by simp⟩
  | cons pr bt ih =>
    intro s
    refine ⟨?_, fun u => ?_, fun u => ?_⟩
    · rw [List.foldl_cons, (ih _).1, (spike_fold_spec pr.2 _ s).1]
      simp [List.map_cons, List.sum_cons]
      omega
    · rw [List.foldl_cons, (ih _).2.1 u, (spike_fold_spec pr.2 _ s).2.1 u]
      simp [List.map_cons, List.sum_cons]
      omega
    · rw [List.foldl_cons, (ih _).2.2 u, (spike_fold_spec pr.2 _ s).2.2 u]
      rw [List.map_cons, List.flatten_cons, List.foldl_append]

/-- Claim C4, amended.  In `compute_templates`, a spike is tallied as a
boundary violation — incrementing the counter exactly once and contributing
nothing to any unit's template sum or spike count — exactly when its window
reaches past the batch end (`t + 29 ≥ n`) or below numpy's wrap range
(`t - 10 < -n`).  The final violation tally is the number of such spikes
over all processed batches, each in-range spike is counted once in its own
unit's count, and each unit's template sum is the fold of exactly the
windows extracted for its in-range spikes.  A window merely extending
before the batch start (within the wrap range) does not raise: numpy's
negative fancy indexing wraps it to the end of the batch and the spike is
processed as normal. -/
theorem claim_C4_boundary_violations (batches : List (List (List ℚ)))
    (n_samples : Int) (spt : List (Int × Int)) (s0 : TemplState) :
    (∀ ts t, extract_window ts t = none ↔
        ((ts.length : Int) ≤ t + 29 ∨ t - 10 < -(ts.length : Int)))
  ∧ ((compute_templates batches n_samples spt s0).violations
      = s0.violations
        + ((batches.enum).map (fun pr =>
            ((batch_spikes spt n_samples (pr.1 : Int)).filter
              (fun p => (extract_window pr.2 p.1).isNone)).length)).sum)
  ∧ (∀ u, (compute_templates batches n_samples spt s0).counts u
      = s0.counts u
        + ((batches.enum).map (fun pr =>
            ((batch_spikes spt n_samples (pr.1 : Int)).filter
              (fun p => (extract_window pr.2 p.1).isSome && (p.2 == u))).length)).sum)
  ∧ (∀ u, (compute_templates batches n_samples spt s0).sums u
      = (((batches.enum).map (fun pr =>
            (batch_spikes spt n_samples (pr.1 : Int)).filterMap
              (fun p => if p.2 = u then extract_window pr.2 p.1 else none))).flatten).foldl
          matAdd (s0.sums u)) := by
  refine ⟨fun ts t => extract_window_none_iff ts t, ?_, ?_, ?_⟩
  · exact (batches_fold_spec spt n_samples batches.enum s0).1
  · exact (batches_fold_spec spt n_samples batches.enum s0).2.1
  · exact (batches_fold_spec spt n_samples batches.enum s0).2.2

/-- Claim C4, counterexample to the claim as stated: in a 50-sample,
single-channel batch, the spike at batch-local time 5 has a window
(`-5 .. 34`) that extends before the batch start, yet `compute_templates`
does *not* count a boundary violation for it and *does* include it in unit
0's spike count: numpy's negative indices wrap instead of raising. -/
theorem claim_C4_counterexample :
    (5 : Int) - 10 < 0
  ∧ (compute_templates [List.replicate 50 (List.replicate 1 (0 : ℚ))] 50
      [((5 : Int), (0 : Int))] (initTemplState 1)).violations = 0
  ∧ (compute_templates [List.replicate 50 (List.replicate 1 (0 : ℚ))] 50
      [((5 : Int), (0 : Int))] (initTemplState 1)).counts 0 = 1 := by
  refine ⟨by norm_num, ?_, ?_⟩ <;> decide

/-- Claim C8: on any train with nonnegative integer labels,
`clean_spike_train` (i) maps each original label to exactly one normalized
label (the normalization factors through a function on labels, leaving
times in place), (ii) uses `U` = the number of distinct input labels, and
(iii) produces exactly the labels `0..U-1`: every output label is some
`i < U` and every `i < U` occurs. -/
theorem claim_C8_normalized_labels (spt : List (Int × Int))
    (hpos : ∀ p ∈ spt, 0 ≤ p.2) :
    (∃ f : Int → Int, clean_spike_train spt = spt.map (fun p => (p.1, f p.2)))
  ∧ (npUnique (spt.map Prod.snd)).length = (spt.map Prod.snd).toFinset.card
  ∧ (∀ q ∈ clean_spike_train spt,
      ∃ i : ℕ, i < (npUnique (spt.map Prod.snd)).length ∧ q.2 = (i : Int))
  ∧ (∀ i : ℕ, i < (npUnique (spt.map Prod.snd)).length →
      ∃ q ∈ clean_spike_train spt, q.2 = (i : Int)) := by
  refine ⟨⟨fun x => (((npUnique (spt.map Prod.snd)).indexOf x : ℕ) : Int), ?_⟩,
    npUnique_length_eq_card _, clean_label_lt spt hpos, clean_label_surj spt hpos⟩
  exact clean_spike_train_eq spt hpos

/-- Claim C8, witness: the normalization of `[(100, 5), (200, 3), (300, 5)]`
has labels exactly `{0, 1}` with `5 ↦ 1` and `3 ↦ 0`. -/
theorem claim_C8_witness :
    (∀ p ∈ [((100 : Int), (5 : Int)), (200, 3), (300, 5)], 0 ≤ p.2)
  ∧ ((∃ f : Int → Int,
        clean_spike_train [((100 : Int), (5 : Int)), (200, 3), (300, 5)]
          = [((100 : Int), (5 : Int)), (200, 3), (300, 5)].map (fun p => (p.1, f p.2)))
    ∧ (npUnique ([((100 : Int), (5 : Int)), (200, 3), (300, 5)].map Prod.snd)).length
        = ([((100 : Int), (5 : Int)), (200, 3), (300, 5)].map Prod.snd).toFinset.card
    ∧ (∀ q ∈ clean_spike_train [((100 : Int), (5 : Int)), (200, 3), (300, 5)],
        ∃ i : ℕ,
          i < (npUnique ([((100 : Int), (5 : Int)), (200, 3), (300, 5)].map Prod.snd)).length
          ∧ q.2 = (i : Int))
    ∧ (∀ i : ℕ,
        i < (npUnique ([((100 : Int), (5 : Int)), (200, 3), (300, 5)].map Prod.snd)).length →
        ∃ q ∈ clean_spike_train [((100 : Int), (5 : Int)), (200, 3), (300, 5)],
          q.2 = (i : Int))) :=
  ⟨by decide, claim_C8_normalized_labels _ (by decide)⟩

/-- Claim C9, counterexample to the claim as stated: `clean_spike_train`
does *not* leave the caller's array unchanged — it relabels in place, so
after the call the argument `[(100, 5)]` holds `[(100, 0)]`. -/
theorem claim_C9_counterexample :
    clean_spike_train_final_arg [((100 : Int), (5 : Int))]
      ≠ [((100 : Int), (5 : Int))] := by
  decide

/-- Claim C9, amended: `clean_spike_train` mutates the caller's array in
place and returns that same array, so after the call the argument holds
exactly the returned normalized train; the normalization is a deterministic
function of the input values and preserves the spike-time column (only
labels change). -/
theorem claim_C9_amended (spt : List (Int × Int)) :
    clean_spike_train_final_arg spt = clean_spike_train spt
  ∧ (clean_spike_train_final_arg spt).map Prod.fst = spt.map Prod.fst :=
  ⟨rfl, clean_spike_train_fst spt⟩

/-! ## `RecordingAugmentation.compute_stat_summary`

```python
self.stat_summary = np.zeros([n_units, 3])
spt = self.template_comp.spike_train
for u in range(n_units):
    spt_u = np.sort(spt[spt[:, 1] == u, 0])
    if len(spt > 2):
        u_firing_diff = spt_u[1:] - spt_u[:-1]
        u_firing_diff[u_firing_diff == 0] = 1
        u_firing_diff = np.log(u_firing_diff)
        u_mean = np.mean(u_firing_diff)
        u_std = np.std(u_firing_diff)
        self.stat_summary[u, :] = u_mean, u_std, len(spt_u)
return self.stat_summary
```

Note the guard: `spt > 2` is an elementwise boolean array of the same shape
as the whole spike train, and `len` of it is the train's row count `N`, so
the branch runs whenever the *whole train* is non-empty — regardless of how
few spikes unit `u` has.  For a unit with fewer than two spikes the
difference array is empty and `np.mean` / `np.std` of an empty array are
NaN; NaN is modelled as `none`.  `np.log` and the square root inside
`np.std` are irrational-valued, so they enter the model as oracle functions
`log` and `sqrt` on `ℚ`. -/

/-- `np.mean`: `none` models the NaN produced on an empty array. -/
def npMean (l : List ℚ) : Option ℚ :=
  if l.length = 0 then none else some (l.sum / (l.length : ℚ))

/-- `np.std` (population standard deviation), with the square root supplied
as an oracle; `none` models the NaN produced on an empty array. -/
def npStd (sqrt : ℚ → ℚ) (l : List ℚ) : Option ℚ :=
  if l.length = 0 then none
  else some (sqrt ((l.map (fun x => (x - l.sum / (l.length : ℚ)) ^ 2)).sum
      / (l.length : ℚ)))

/-- `spt_u[1:] - spt_u[:-1]`: consecutive differences. -/
def consecutive_diffs (l : List Int) : List Int :=
  List.zipWith (fun a b => b - a) l (l.drop 1)

/-- Shallow embedding of `compute_stat_summary`: one `(mean, std, count)`
row per unit in `range n_units`; `none` entries are NaNs.  The rows of the
`np.zeros` initialization that the loop body never overwrites remain
`(some 0, some 0, 0)`. -/
def compute_stat_summary (log sqrt : ℚ → ℚ) (n_units : ℕ)
    (spt : List (Int × Int)) : List (Option ℚ × Option ℚ × ℚ) :=
  (List.range n_units).map (fun (u : ℕ) =>
    let spt_u := ((spt.filter (fun p => p.2 == (u : Int))).map Prod.fst).insertionSort (· ≤ ·)
    if spt.length ≠ 0 then
      let d0 := consecutive_diffs spt_u
      let d1 := d0.map (fun x => if x = 0 then 1 else x)
      let ld := d1.map (fun x => log (x : ℚ))
      (npMean ld, npStd sqrt ld, (spt_u.length : ℚ))
    else (some 0, some 0, 0))

/-- Claim C5 (code evaluation at the failing input): on the train
`[(100,0), (200,0), (300,1)]` the guard `len(spt > 2)` is the whole train's
row count (3), so the branch runs for unit 1 even though unit 1 has a
single spike; its difference array is empty and the written row is
`(NaN, NaN, 1)` — not the all-zero row the claim promises, whatever values
the `log`/`sqrt` oracles take. -/
theorem claim_C5_nan_row (log sqrt : ℚ → ℚ) :
    (compute_stat_summary log sqrt 2
        [((100 : Int), (0 : Int)), (200, 0), (300, 1)]).getD 1 (some 0, some 0, 0)
      = (none, none, 1)
  ∧ ((none : Option ℚ), (none : Option ℚ), (1 : ℚ))
      ≠ ((some 0 : Option ℚ), (some 0 : Option ℚ), (0 : ℚ)) := by
  exact ⟨rfl, by decide⟩

/-! ## `RecordingAugmentation.make_fake_spike_train`

```python
refractory_period = 60
...
for u in range(n_units):
    spt_u = np.sort(spt[spt[:, 1] == u, 0])
    new_spike_count = int(self.stat_summary[u, 2] * augment_rate)
    diffs = np.exp(np.random.normal(...)).astype('int')
    offsets = np.sort(np.random.choice(spt_u, new_spike_count, replace=False))
    diffs[diffs < refractory_period] += refractory_period
    times += list(offsets + diffs)
    cid += [u] * new_spike_count
return np.array([times, cid]).T
```

The random draws (`diffs`, and the chosen anchor multiset passed to
`np.sort`) are oracle inputs.  `offsets + diffs` is numpy *elementwise*
addition of two equal-length arrays. -/

/-- The refractory floor of `make_fake_spike_train`. -/
def refractory_period : Int := 60

/-- `diffs[diffs < refractory_period] += refractory_period`. -/
def adjusted_diffs (diffs : List Int) : List Int :=
  diffs.map (fun d => if d < refractory_period then d + refractory_period else d)

/-- The new spike times generated for one unit: the chosen anchors sorted,
plus — elementwise — the refractory-adjusted sampled gaps. -/
def fake_times_unit (chosen diffs : List Int) : List Int :=
  List.zipWith (· + ·) (chosen.insertionSort (· ≤ ·)) (adjusted_diffs diffs)

/-- Shallow embedding of `make_fake_spike_train`: `draws` supplies, for each
unit `u` in order, the anchor spike times chosen for it and the sampled
gaps; the result concatenates each unit's new times tagged with `u`. -/
def make_fake_spike_train (draws : List (List Int × List Int)) : List (Int × Int) :=
  (draws.enum).flatMap (fun pr =>
    (fake_times_unit pr.2.1 pr.2.2).map (fun t => (t, (pr.1 : Int))))

/-- Claim C7, counterexample to the claim as stated: with anchors
`{0, 1000}` and sampled gaps `[100, 200]` (both above the refractory
floor), the unit's new times are `[0 + 100, 1000 + 200] = [100, 1200]` —
elementwise — and *not* the cumulative-sum prediction
`[0 + 100, 1000 + (100 + 200)] = [100, 1300]`. -/
theorem claim_C7_counterexample :
    fake_times_unit [0, 1000] [100, 200] = [100, 1200]
  ∧ fake_times_unit [0, 1000] [100, 200]
      ≠ [0 + 100, 1000 + (100 + 200)] := by
  exact ⟨rfl, by decide⟩

/-- Claim C7, amended: in `make_fake_spike_train`, each unit's `k`-th new
spike time is the `k`-th smallest chosen anchor plus the `k`-th
refractory-adjusted gap alone — elementwise addition, not a cumulative
sum of gaps. -/
theorem claim_C7_elementwise (chosen diffs : List Int) (k : ℕ)
    (hk : k < (fake_times_unit chosen diffs).length) :
    (fake_times_unit chosen diffs).getD k 0
      = (chosen.insertionSort (· ≤ ·)).getD k 0 + (adjusted_diffs diffs).getD k 0 := by
  unfold fake_times_unit at hk ⊢
  rw [List.length_zipWith] at hk
  have h1 : k < (chosen.insertionSort (· ≤ ·)).length := lt_of_lt_of_le hk (min_le_left _ _)
  have h2 : k < (adjusted_diffs diffs).length := lt_of_lt_of_le hk (min_le_right _ _)
  rw [List.getD_eq_getElem _ _ (by rw [List.length_zipWith]; exact hk),
      List.getD_eq_getElem _ _ h1, List.getD_eq_getElem _ _ h2]
  exact List.getElem_zipWith

/-- Claim C7, witness for the amended statement: the second (`k = 1`) new
time of the unit with anchors `{0, 1000}` and gaps `[100, 200]` is
`1000 + 200`. -/
theorem claim_C7_witness :
    1 < (fake_times_unit [0, 1000] [100, 200]).length
  ∧ (fake_times_unit [0, 1000] [100, 200]).getD 1 0
      = ([(0 : Int), 1000].insertionSort (· ≤ ·)).getD 1 0
        + (adjusted_diffs [100, 200]).getD 1 0 :=
  ⟨by decide, claim_C7_elementwise [0, 1000] [100, 200] 1 (by decide)⟩

/-! ## `RecordingAugmentation.save_augment_recording` — template injection

```python
for i in tqdm(range(length)):
    batch_idx = np.logical_and(
        aug_spt[:, 0] > i * n_samples,
        aug_spt[:, 0] < (i+1) * n_samples)
    spt = aug_spt[batch_idx, :]
    spt[:, 0] -= n_samples * i
    ts = reader.next_batch()
    for j in range(spt.shape[0]):
        cid = spt[j, 1]
        try:
            if moved[cid]:
                ts[spt[j, 0] + self.window, :] += moved_templates[:, :, moved[cid]]
            else:
                ts[spt[j, 0] + self.window, :] += orig_templates[:, :, cid]
        except:
            boundary_violation += 1
    ts *= scale
    ts = ts.astype('int16')
    ts.tofile(f)
```

Here `self` is the `RecordingAugmentation` instance, whose `__init__` sets
`template_comp`, `geometry`, `n_chan`, `template_calculator`, `x_unit`,
`geom_map` and `stat_summary` — but never `window` (only
`MeanWaveCalculator` has a `window` attribute).  The lookup `self.window`
therefore raises `AttributeError` on every iteration, and the bare
`except:` swallows it, counting the spike as a boundary violation.  The
attribute lookup is modelled as an `Option` that is `none`. -/

/-- The (missing) `window` attribute of `RecordingAugmentation`: the class
never assigns one, so the lookup fails. -/
def recording_augmentation_window : Option (List Int) := none

/-- numpy index wrap (for an index already known to be in `[-n, n)`). -/
def npWrapIdx (n : ℕ) (idx : Int) : ℕ :=
  if idx < 0 then (idx + (n : Int)).toNat else idx.toNat

/-- `ts[idxs, :] += temp`: scatter-add of the template rows at the (wrapped)
window indices. -/
def scatter_add (ts : List (List ℚ)) (idxs : List Int) (temp : List (List ℚ)) :
    List (List ℚ) :=
  (idxs.zip temp).foldl
    (fun m pr =>
      m.set (npWrapIdx m.length pr.1)
        (List.zipWith (· + ·) (m.getD (npWrapIdx m.length pr.1) []) pr.2))
    ts

/-- The `try` body for one augmented spike: look up `self.window`, pick the
relocated template when `moved[cid]` is nonzero (else the original), and
add it into the batch at the window rows; `none` is the raised exception.
Because `recording_augmentation_window = none`, the body always raises
before reaching the injection. -/
def inject_spike (moved : List ℕ) (moved_templates orig_templates : List (List (List ℚ)))
    (ts : List (List ℚ)) (p : Int × Int) : Option (List (List ℚ)) :=
  match recording_augmentation_window with
  | none => none
  | some w =>
      let temp :=
        if moved.getD p.2.toNat 0 ≠ 0 then
          moved_templates.getD (moved.getD p.2.toNat 0) []
        else orig_templates.getD p.2.toNat []
      if w.all (fun off => inBoundsIdx ts.length (p.1 + off)) then
        some (scatter_add ts (w.map (fun off => p.1 + off)) temp)
      else none

/-- The inner loop of `save_augment_recording` over the augmented spikes of
one streamed batch, returning the batch as it stands before scaling and
writing, together with the boundary-violation increment. -/
def save_augment_batch (moved : List ℕ)
    (moved_templates orig_templates : List (List (List ℚ)))
    (ts : List (List ℚ)) (spt : List (Int × Int)) : List (List ℚ) × ℕ :=
  spt.foldl
    (fun st p =>
      match inject_spike moved moved_templates orig_templates st.1 p with
      | some ts2 => (ts2, st.2)
      | none => (st.1, st.2 + 1))
    (ts, 0)

/-- Claim C1 (code evaluation): because `RecordingAugmentation` has no
`window` attribute, every augmented spike of every batch raises
`AttributeError` inside the `try`, is swallowed by the bare `except`, and
is tallied as a boundary violation — the streamed batch is written out
unchanged (before scaling) and no template is ever added, contrary to the
claim. -/
theorem claim_C1_no_injection (moved : List ℕ)
    (moved_templates orig_templates : List (List (List ℚ)))
    (ts : List (List ℚ)) (spt : List (Int × Int)) :
    save_augment_batch moved moved_templates orig_templates ts spt
      = (ts, spt.length) := by
  have haux : ∀ (l : List (Int × Int)) (m : List (List ℚ)) (k : ℕ),
      l.foldl
        (fun st p =>
          match inject_spike moved moved_templates orig_templates st.1 p with
          | some ts2 => (ts2, st.2)
          | none => (st.1, st.2 + 1))
        (m, k) = (m, k + l.length) := by
    intro l
    induction l with
    | nil => intro m k; simp
    | cons p t ih =>
      intro m k
      rw [List.foldl_cons]
      have hnone : inject_spike moved moved_templates orig_templates m p = none := rfl
      rw [hnone]
      rw [ih m (k + 1)]
      simp
      omega
  unfold save_augment_batch
  rw [haux spt ts 0]
  simp

/-! ## `save_augment_recording` — relabeling of relocated units

```python
moved = np.zeros(n_units)
for i, u in enumerate(moved_units):
    moved[u] = i
    ...
# Reassign spikes from moved clusters to new units.
new_unit_id = self.template_comp.n_units
for u in range(self.template_comp.n_units):
    if moved[u]:
        aug_spt[aug_spt[:, 1] == u, 1] = new_unit_id
        new_unit_id += 1
```

`moved[u]` holds the *index* of `u` in the sorted selection `moved_units`,
so the first selected unit stores `0`, which is falsy in `if moved[u]:`.
The inline comment says `0 indicates no movement`. -/

/-- The construction of the `moved` array: `moved[u] = i` for
`i, u in enumerate(moved_units)` over an all-zero array of length
`n_units`. -/
def mkMoved (n_units : ℕ) (moved_units : List ℕ) : List ℕ :=
  (moved_units.enum).foldl (fun m pr => m.set pr.2 pr.1)
    (List.replicate n_units 0)

/-- The relabeling loop at the end of `save_augment_recording`: walk units
`0..n_units-1`; when `moved[u]` is truthy (nonzero), relabel the augmented
spikes of unit `u` to the running fresh id (starting at `n_units`) and
advance it. -/
def relabel_aug (n_units : ℕ) (moved : List ℕ) (aug : List (Int × Int)) :
    List (Int × Int) :=
  ((List.range n_units).foldl
    (fun st u =>
      if moved.getD u 0 ≠ 0 then
        (st.1.map (fun p => if p.2 = (u : Int) then (p.1, (st.2 : Int)) else p),
         st.2 + 1)
      else st)
    (aug, n_units)).1

/-- Claim C6 (code evaluation at the failing input): with `n_units = 2` and
`moved_units = [0]` (unit 0 selected for relocation), `moved` is `[0, 0]`,
so the relabeling loop's `if moved[u]:` is false for the selected unit 0
and its augmented spikes keep their original label `0 < 2` — no fresh id
`≥ n_units` is assigned, contrary to the claim. -/
theorem claim_C6_first_moved_unit_kept :
    mkMoved 2 [0] = [0, 0]
  ∧ relabel_aug 2 (mkMoved 2 [0]) [((100 : Int), (0 : Int)), (200, 1)]
      = [((100 : Int), (0 : Int)), (200, 1)] := by
  exact ⟨rfl, rfl⟩

/-! ## `SpikeSortingEvaluation`

```python
def __init__(self, spt_base, spt):
    spt_base = clean_spike_train(spt_base)
    spt = clean_spike_train(spt)
    self.n_units = np.max(spt_base[:, 1]) + 1
    self.n_clusters = np.max(spt[:, 1]) + 1
    self.spike_count_base = self.count_spikes(spt_base)
    self.spike_count_cluster = self.count_spikes(spt)
    self.compute_confusion_matrix()
    ...
    self.compute_accuracies()

def compute_accuracies(self):
    self.unit_cluster_map = np.argmax(self.confusion_matrix, axis=0)
    recovered = np.max(self.confusion_matrix, axis=0)
    self.true_positive = recovered / self.spike_count_base
    match_count = self.spike_count_cluster[self.unit_cluster_map]
    self.false_positive = (match_count - recovered) / match_count
```

`count_matches` is a two-cursor linear merge with tolerance
`admissible_proximity = 60`; it is embedded with an explicit fuel
(`len(a1) + len(a2)`), which bounds the loop since every iteration
consumes at least one element. -/

/-- The temporal matching tolerance `self.admissible_proximity`. -/
def admissible_proximity : Int := 60

/-- The `while i < m and j < n` loop of `count_matches`, with fuel. -/
def count_matches_fuel : ℕ → List Int → List Int → ℕ
  | 0, _, _ => 0
  | _ + 1, [], _ => 0
  | _ + 1, _, [] => 0
  | f + 1, x :: xs, y :: ys =>
      if |x - y| < admissible_proximity then count_matches_fuel f xs ys + 1
      else if x < y then count_matches_fuel f xs (y :: ys)
      else count_matches_fuel f (x :: xs) ys

/-- `count_matches(array1, array2)`: the greedy one-pass temporal matcher. -/
def count_matches (a1 a2 : List Int) : ℕ :=
  count_matches_fuel (a1.length + a2.length) a1 a2

/-- `np.max` on a 1-D integer array (the module only applies it to
non-empty arrays; the empty case is numpy's error and is given the junk
value 0). -/
def npMaxInt (l : List Int) : Int :=
  match l with
  | [] => 0
  | h :: t => t.foldl max h

/-- `count_spikes(spt)`: per-label tallies over labels
`0 .. max(spt[:,1])`, as the floats numpy produces. -/
def count_spikes (spt : List (Int × Int)) : List ℚ :=
  (List.range (npMaxInt (spt.map Prod.snd) + 1).toNat).map
    (fun (u : ℕ) => ((spt.filter (fun p => p.2 == (u : Int))).length : ℚ))

/-- The spike times of one unit, in train order. -/
def times_of (spt : List (Int × Int)) (u : Int) : List Int :=
  (spt.filter (fun p => p.2 == u)).map Prod.fst

/-- `np.argmax`: index of the first occurrence of the maximum (0 on the
empty array, where numpy raises). -/
def idxOfMax (l : List ℚ) : ℕ :=
  ((l.enum).foldl (fun best pr => if best.2 < pr.2 then pr else best)
    (0, l.headD 0)).1

/-- `np.max` on a 1-D rational array (junk value 0 on the empty array,
where numpy raises). -/
def npMaxQ (l : List ℚ) : ℚ :=
  match l with
  | [] => 0
  | h :: t => t.foldl max h

/-- The attributes of a `SpikeSortingEvaluation` instance after
`__init__` returns. -/
structure EvalResult where
  n_units : ℕ
  n_clusters : ℕ
  spike_count_base : List ℚ
  spike_count_cluster : List ℚ
  confusion_matrix : List (List ℕ)
  unit_cluster_map : List ℕ
  recovered : List ℚ
  true_positive : List ℚ
  false_positive : List ℚ

/-- Shallow embedding of `SpikeSortingEvaluation.__init__` (including
`compute_confusion_matrix` and `compute_accuracies`).  Elementwise numpy
array arithmetic between equal-length vectors is `List.zipWith`; the fancy
index `spike_count_cluster[unit_cluster_map]` is a `getD` per entry. -/
def spike_sorting_evaluation (spt_base spt : List (Int × Int)) : EvalResult :=
  let base := clean_spike_train spt_base
  let cand := clean_spike_train spt
  let n_units := (npMaxInt (base.map Prod.snd) + 1).toNat
  let n_clusters := (npMaxInt (cand.map Prod.snd) + 1).toNat
  let scb := count_spikes base
  let scc := count_spikes cand
  let cm := (List.range n_units).map (fun (u : ℕ) =>
    (List.range n_clusters).map (fun (c : ℕ) =>
      count_matches (times_of base (u : Int)) (times_of cand (c : Int))))
  let colQ := fun c => cm.map (fun row => ((row.getD c 0 : ℕ) : ℚ))
  let ucm := (List.range n_clusters).map (fun c => idxOfMax (colQ c))
  let recovered := (List.range n_clusters).map (fun c => npMaxQ (colQ c))
  let true_positive := List.zipWith (· / ·) recovered scb
  let match_count := ucm.map (fun u => scc.getD u 0)
  let false_positive := List.zipWith (fun mc rc => (mc - rc) / mc) match_count recovered
  { n_units := n_units
    n_clusters := n_clusters
    spike_count_base := scb
    spike_count_cluster := scc
    confusion_matrix := cm
    unit_cluster_map := ucm
    recovered := recovered
    true_positive := true_positive
    false_positive := false_positive }

/-- Claim C2: on reference train `[(100,0),(500,0),(1000,1)]` and candidate
train `[(105,0),(1005,1)]` (tolerance 60), the evaluation yields confusion
matrix `[[1,0],[0,1]]`, true-positive rates `1/2` and `1`, and
false-discovery rates `0` and `0`. -/
theorem claim_C2_concrete_scenario :
    (spike_sorting_evaluation
        [((100 : Int), (0 : Int)), (500, 0), (1000, 1)]
        [((105 : Int), (0 : Int)), (1005, 1)]).confusion_matrix = [[1, 0], [0, 1]]
  ∧ (spike_sorting_evaluation
        [((100 : Int), (0 : Int)), (500, 0), (1000, 1)]
        [((105 : Int), (0 : Int)), (1005, 1)]).true_positive = [1 / 2, 1]
  ∧ (spike_sorting_evaluation
        [((100 : Int), (0 : Int)), (500, 0), (1000, 1)]
        [((105 : Int), (0 : Int)), (1005, 1)]).false_positive = [0, 0] := by
  set r := spike_sorting_evaluation
    [((100 : Int), (0 : Int)), (500, 0), (1000, 1)]
    [((105 : Int), (0 : Int)), (1005, 1)] with hr
  have hrec : r.recovered = [((1 : ℕ) : ℚ), ((1 : ℕ) : ℚ)] := by rw [hr]; decide
  have hscb : r.spike_count_base = [((2 : ℕ) : ℚ), ((1 : ℕ) : ℚ)] := by rw [hr]; decide
  have hscc : r.spike_count_cluster = [((1 : ℕ) : ℚ), ((1 : ℕ) : ℚ)] := by rw [hr]; decide
  have hucm : r.unit_cluster_map = [0, 1] := by rw [hr]; decide
  have htp : r.true_positive = List.zipWith (· / ·) r.recovered r.spike_count_base := rfl
  have hfp : r.false_positive
      = List.zipWith (fun mc rc => (mc - rc) / mc)
          (r.unit_cluster_map.map (fun u => r.spike_count_cluster.getD u 0))
          r.recovered := rfl
  refine ⟨by rw [hr]; decide, ?_, ?_⟩
  · rw [htp, hrec, hscb]
    norm_num
  · rw [hfp, hucm, hscc, hrec]
    norm_num

/-- Modelled from the spec sentence "False-discovery rate per matched
cluster = (cluster's total spike count − matched count) / cluster's total
spike count": the per-cluster rate computed from each cluster's *own* total
spike count and its matched count. -/
def fdr_spec (cluster_counts matched : List ℚ) : List ℚ :=
  List.zipWith (fun tot m => (tot - m) / tot) cluster_counts matched

/-- Claim C3 (code evaluation at the failing input): on normalized trains
base `[(100,0),(200,0),(1000,1)]` and candidate `[(1000,0),(100,1),(200,1)]`
the confusion matrix is `[[0,2],[1,0]]`, so the best unit for cluster 0 is
1 and for cluster 1 is 0.  The code divides by
`spike_count_cluster[unit_cluster_map]` — the counts of the *unit-indexed*
entries `[2, 1]` — yielding `[(2-1)/2, (1-2)/1] = [1/2, -1]` (a negative
"rate"), while the claimed formula with each cluster's own total
`[1, 2]` yields `[0, 0]`. -/
theorem claim_C3_fdr_divergence :
    (spike_sorting_evaluation
        [((100 : Int), (0 : Int)), (200, 0), (1000, 1)]
        [((1000 : Int), (0 : Int)), (100, 1), (200, 1)]).false_positive = [1 / 2, -1]
  ∧ fdr_spec
      (spike_sorting_evaluation
        [((100 : Int), (0 : Int)), (200, 0), (1000, 1)]
        [((1000 : Int), (0 : Int)), (100, 1), (200, 1)]).spike_count_cluster
      (spike_sorting_evaluation
        [((100 : Int), (0 : Int)), (200, 0), (1000, 1)]
        [((1000 : Int), (0 : Int)), (100, 1), (200, 1)]).recovered = [0, 0]
  ∧ (spike_sorting_evaluation
        [((100 : Int), (0 : Int)), (200, 0), (1000, 1)]
        [((1000 : Int), (0 : Int)), (100, 1), (200, 1)]).false_positive
      ≠ fdr_spec
          (spike_sorting_evaluation
            [((100 : Int), (0 : Int)), (200, 0), (1000, 1)]
            [((1000 : Int), (0 : Int)), (100, 1), (200, 1)]).spike_count_cluster
          (spike_sorting_evaluation
            [((100 : Int), (0 : Int)), (200, 0), (1000, 1)]
            [((1000 : Int), (0 : Int)), (100, 1), (200, 1)]).recovered := by
  set r := spike_sorting_evaluation
    [((100 : Int), (0 : Int)), (200, 0), (1000, 1)]
    [((1000 : Int), (0 : Int)), (100, 1), (200, 1)] with hrdef
  have hrec : r.recovered = [((1 : ℕ) : ℚ), ((2 : ℕ) : ℚ)] := by rw [hrdef]; decide
  have hscc : r.spike_count_cluster = [((1 : ℕ) : ℚ), ((2 : ℕ) : ℚ)] := by
    rw [hrdef]; decide
  have hucm : r.unit_cluster_map = [1, 0] := by rw [hrdef]; decide
  have hfp : r.false_positive
      = List.zipWith (fun mc rc => (mc - rc) / mc)
          (r.unit_cluster_map.map (fun u => r.spike_count_cluster.getD u 0))
          r.recovered := rfl
  have h1 : r.false_positive = [1 / 2, -1] := by
    rw [hfp, hucm, hscc, hrec]
    norm_num
  have h2 : fdr_spec r.spike_count_cluster r.recovered = [0, 0] := by
    rw [hscc, hrec]
    unfold fdr_spec
    norm_num
  exact ⟨h1, h2, by rw [h1, h2]; norm_num⟩

/-- The seed of a `foldl max` is a lower bound of the result. -/
theorem foldl_max_init_le : ∀ (t : List Int) (a : Int), a ≤ t.foldl max a := by
  intro t
  induction t with
  | nil => intro a; exact le_refl a
  | cons b t ih => intro a; exact le_trans (le_max_left a b) (ih (max a b))

/-- Every element folded into a `foldl max` is a lower bound of the result. -/
theorem le_foldl_max : ∀ (t : List Int) (a x : Int), x ∈ t → x ≤ t.foldl max a := by
  intro t
  induction t with
  | nil => intro a x hx; cases hx
  | cons b t ih =>
    intro a x hx
    rcases List.mem_cons.mp hx with h | h
    · subst h
      exact le_trans (le_max_right a x) (foldl_max_init_le t (max a x))
    · exact ih (max a b) x h

/-- A `foldl max` is either its seed or one of the folded elements. -/
theorem foldl_max_mem : ∀ (t : List Int) (a : Int),
    t.foldl max a = a ∨ t.foldl max a ∈ t := by
  intro t
  induction t with
  | nil => intro a; left; rfl
  | cons b t ih =>
    intro a
    rcases ih (max a b) with h | h
    · rw [List.foldl_cons]
      rcases max_choice a b with hm | hm
      · left; rw [h, hm]
      · right
        rw [h, hm]
        exact List.mem_cons_self b t
    · right
      exact List.mem_cons_of_mem _ h

/-- `npMaxInt` bounds every element of a non-empty list. -/
theorem le_npMaxInt (l : List Int) (hne : l ≠ []) : ∀ x ∈ l, x ≤ npMaxInt l := by
  intro x hx
  match l with
  | [] => exact absurd rfl hne
  | h :: t =>
    rcases List.mem_cons.mp hx with he | he
    · subst he
      exact foldl_max_init_le t x
    · exact le_foldl_max t h x he

/-- `npMaxInt` of a non-empty list is one of its elements. -/
theorem npMaxInt_mem (l : List Int) (hne : l ≠ []) : npMaxInt l ∈ l := by
  match l with
  | [] => exact absurd rfl hne
  | h :: t =>
    rcases foldl_max_mem t h with he | he
    · rw [show npMaxInt (h :: t) = List.foldl max h t from rfl, he]
      exact List.mem_cons_self h t
    · exact List.mem_cons_of_mem _ he

/-- After normalizing a non-empty train with nonnegative labels, every
entry of `count_spikes` is strictly positive: the labels are exactly
`0..U-1`, the tally ranges over `0..max+1 = U`, and every such label
occurs. -/
theorem count_spikes_pos (l : List (Int × Int)) (hne : l ≠ [])
    (hpos : ∀ p ∈ l, 0 ≤ p.2) :
    ∀ x ∈ count_spikes (clean_spike_train l), 0 < x := by
  set units := npUnique (l.map Prod.snd) with hunits
  have hU1 : 1 ≤ units.length := by
    match l, hne with
    | p :: t, _ =>
      have hm : p.2 ∈ units := by
        rw [hunits, mem_npUnique]
        exact List.mem_map.mpr ⟨p, List.mem_cons_self p t, rfl⟩
      have := List.length_pos.mpr (List.ne_nil_of_mem hm)
      omega
  have hlabels : (clean_spike_train l).map Prod.snd
      = l.map (fun p => ((units.indexOf p.2 : ℕ) : Int)) := by
    rw [clean_spike_train_eq l hpos, List.map_map]
    rfl
  have hne2 : (clean_spike_train l).map Prod.snd ≠ [] := by
    rw [hlabels]
    match l, hne with
    | p :: t, _ => simp
  have hmax : npMaxInt ((clean_spike_train l).map Prod.snd)
      = (units.length : Int) - 1 := by
    apply le_antisymm
    · have hmem := npMaxInt_mem _ hne2
      rw [hlabels] at hmem
      rcases List.mem_map.mp hmem with ⟨p, hp, hpm⟩
      have hidx : units.indexOf p.2 < units.length :=
        List.indexOf_lt_length.mpr
          (by rw [hunits, mem_npUnique]; exact List.mem_map.mpr ⟨p, hp, rfl⟩)
      rw [hlabels, ← hpm]
      omega
    · rcases clean_label_surj l hpos (units.length - 1)
        (by rw [← hunits]; omega) with ⟨q, hq, hq2⟩
      have hqm : q.2 ∈ (clean_spike_train l).map Prod.snd :=
        List.mem_map.mpr ⟨q, hq, rfl⟩
      have hle := le_npMaxInt _ hne2 q.2 hqm
      rw [hq2] at hle
      omega
  intro x hx
  unfold count_spikes at hx
  rw [hmax] at hx
  have htoNat : (((units.length : Int) - 1) + 1).toNat = units.length := by omega
  rw [htoNat] at hx
  rcases List.mem_map.mp hx with ⟨u, hu, hux⟩
  rw [List.mem_range] at hu
  rcases clean_label_surj l hpos u hu with ⟨q, hq, hq2⟩
  have hqf : q ∈ (clean_spike_train l).filter (fun p => p.2 == (u : Int)) := by
    rw [List.mem_filter]
    exact ⟨hq, by rw [hq2]; simp⟩
  have hlen : 0 < ((clean_spike_train l).filter (fun p => p.2 == (u : Int))).length :=
    List.length_pos.mpr (List.ne_nil_of_mem hqf)
  rw [← hux]
  exact_mod_cast hlen

/-- Claim C10: after `SpikeSortingEvaluation.__init__` normalizes two
non-empty trains with nonnegative integer labels, every entry of the
per-unit and per-cluster spike-count vectors is strictly positive (every
label in `0..max` occurs), so the divisions of `compute_accuracies` never
divide by zero: the true-positive denominators are entries of
`spike_count_base`, and every false-discovery denominator
`spike_count_cluster[unit_cluster_map[c]]` that numpy's fancy indexing can
deliver (an in-bounds index) is an entry of `spike_count_cluster`. -/
theorem claim_C10_no_zero_denominators (spt_base spt : List (Int × Int))
    (hne1 : spt_base ≠ []) (hne2 : spt ≠ [])
    (hpos1 : ∀ p ∈ spt_base, 0 ≤ p.2) (hpos2 : ∀ p ∈ spt, 0 ≤ p.2) :
    (∀ x ∈ (spike_sorting_evaluation spt_base spt).spike_count_base, 0 < x)
  ∧ (∀ x ∈ (spike_sorting_evaluation spt_base spt).spike_count_cluster, 0 < x)
  ∧ (∀ u ∈ (spike_sorting_evaluation spt_base spt).unit_cluster_map,
      u < (spike_sorting_evaluation spt_base spt).spike_count_cluster.length →
      (spike_sorting_evaluation spt_base spt).spike_count_cluster.getD u 0 ≠ 0) := by
  have hbase : (spike_sorting_evaluation spt_base spt).spike_count_base
      = count_spikes (clean_spike_train spt_base) := rfl
  have hclus : (spike_sorting_evaluation spt_base spt).spike_count_cluster
      = count_spikes (clean_spike_train spt) := rfl
  have h1 : ∀ x ∈ (spike_sorting_evaluation spt_base spt).spike_count_base, 0 < x := by
    rw [hbase]; exact count_spikes_pos spt_base hne1 hpos1
  have h2 : ∀ x ∈ (spike_sorting_evaluation spt_base spt).spike_count_cluster, 0 < x := by
    rw [hclus]; exact count_spikes_pos spt hne2 hpos2
  refine ⟨h1, h2, ?_⟩
  intro u _ hu
  have hmem : (spike_sorting_evaluation spt_base spt).spike_count_cluster.getD u 0
      ∈ (spike_sorting_evaluation spt_base spt).spike_count_cluster := by
    rw [List.getD_eq_getElem _ _ hu]
    exact List.getElem_mem hu
  exact ne_of_gt (h2 _ hmem)

/-- Claim C10, witness: the one-spike trains `[(1, 0)]` and `[(2, 0)]`
satisfy the hypotheses, and the theorem applies. -/
theorem claim_C10_witness :
    ([((1 : Int), (0 : Int))] ≠ [] ∧ [((2 : Int), (0 : Int))] ≠ []
      ∧ (∀ p ∈ [((1 : Int), (0 : Int))], 0 ≤ p.2)
      ∧ (∀ p ∈ [((2 : Int), (0 : Int))], 0 ≤ p.2))
  ∧ ((∀ x ∈ (spike_sorting_evaluation [((1 : Int), (0 : Int))]
        [((2 : Int), (0 : Int))]).spike_count_base, 0 < x)
    ∧ (∀ x ∈ (spike_sorting_evaluation [((1 : Int), (0 : Int))]
        [((2 : Int), (0 : Int))]).spike_count_cluster, 0 < x)
    ∧ (∀ u ∈ (spike_sorting_evaluation [((1 : Int), (0 : Int))]
          [((2 : Int), (0 : Int))]).unit_cluster_map,
        u < (spike_sorting_evaluation [((1 : Int), (0 : Int))]
          [((2 : Int), (0 : Int))]).spike_count_cluster.length →
        (spike_sorting_evaluation [((1 : Int), (0 : Int))]
          [((2 : Int), (0 : Int))]).spike_count_cluster.getD u 0 ≠ 0)) :=
  ⟨⟨by decide, by decide, by decide, by decide⟩,
    claim_C10_no_zero_denominators _ _ (by decide) (by decide) (by decide) (by decide)⟩
